import Mathlib

/-!
# Verification of the lehrerdb timetable / assessment web application core

Shallow embedding of the domain logic of `webapp.py`:

* the timetable resolution engine of `_handle_home` (exact-date rows,
  most-recent-past overrides, weekly template rows, double-period
  inheritance),
* the lesson status override lifecycle (`_post_lesson_update_status`,
  `_post_lesson_uncancel`),
* the assessment scoring engine (`_calculate_student_performance_grade`,
  `_post_performance_update_student_scores`),
* the CSV import of assessment results (`_post_performance_import`).

SQLite tables are embedded as Lean lists of typed rows; `fetchone` on an
unordered query is embedded as `List.find?` (first row in table order);
`TEXT` ISO dates, which SQLite compares lexicographically and hence
chronologically, are embedded as `Nat`.
-/

namespace LehrerDB

/-- One row of the `timetable` table (schema in `init_db`):
`id, class_id, period, is_double, slot, day, time_range, date, status,
subject_id, room, course_id`.  `date = none` is a weekly template row. -/
structure TTRow where
  id : Nat
  class_id : Option Nat
  course_id : Option Nat
  period : Nat
  is_double : Bool
  slot : Nat
  day : String
  time_range : Option String
  date : Option Nat
  subject_id : Option Nat
  room : Option String
  status : Option String
deriving DecidableEq

/-- The `timetable` table, in insertion order. -/
abbrev TTDB := List TTRow

/-- `SCHEDULE_PATTERN` restricted to its period entries
(`[slot['period'] for slot in SCHEDULE_PATTERN if 'period' in slot]`):
periods 1–6, then 8 and 9 (7 is the long break). -/
def schedulePeriods : List Nat := [1, 2, 3, 4, 5, 6, 8, 9]

/-- SQL-style coalescing used by the resolution loop: keep the first
query result that produced a row (`if not row: row = ...`). -/
def orOpt {α : Type} (a b : Option α) : Option α :=
  match a with
  | some x => some x
  | none => b

@[simp] theorem orOpt_some {α : Type} (x : α) (b : Option α) :
    orOpt (some x) b = some x := rfl

@[simp] theorem orOpt_none {α : Type} (b : Option α) :
    orOpt none b = b := rfl

theorem orOpt_assoc {α : Type} (a b c : Option α) :
    orOpt (orOpt a b) c = orOpt a (orOpt b c) := by
  cases a <;> rfl

@[simp] theorem orOpt_none_right {α : Type} (a : Option α) :
    orOpt a none = a := by
  cases a <;> rfl

/-- Rule 1 query: `WHERE t.date=? AND t.period=?`, `fetchone` (first row
in table order; no weekday filter in the source). -/
def exactQ (db : TTDB) (date : Nat) (period : Nat) : Option TTRow :=
  db.find? (fun r => decide (r.date = some date ∧ r.period = period))

/-- Row filter of rule 2: `t.date IS NOT NULL AND t.date < ? AND t.day=?
AND t.period=?`. -/
def pastP (date : Nat) (day : String) (period : Nat) (r : TTRow) : Bool :=
  (match r.date with
   | some d => decide (d < date)
   | none => false) && decide (r.day = day) && decide (r.period = period)

/-- `ORDER BY t.date DESC LIMIT 1`: keep the row with the strictly
greatest date, earliest row in table order on ties (SQLite leaves the
tie order unspecified; this embedding fixes table order). -/
def laterOf (a b : TTRow) : TTRow :=
  match a.date, b.date with
  | some da, some db' => if da < db' then b else a
  | _, _ => a

/-- Rule 2 query: most recent past override for this weekday/period. -/
def pastQ (db : TTDB) (date : Nat) (day : String) (period : Nat) : Option TTRow :=
  match db.filter (pastP date day period) with
  | [] => none
  | x :: xs => some (xs.foldl laterOf x)

/-- Rule 3 query: `WHERE t.date IS NULL AND t.day=? AND t.period=?`,
`fetchone`. -/
def templQ (db : TTDB) (day : String) (period : Nat) : Option TTRow :=
  db.find? (fun r => decide (r.date = none ∧ r.day = day ∧ r.period = period))

/-- Rules 1–3 in source order: exact date, else most recent past
override, else template. -/
def baseQ3 (db : TTDB) (day : String) (date : Nat) (period : Nat) : Option TTRow :=
  orOpt (exactQ db date period) (orOpt (pastQ db date day period) (templQ db day period))

/-- Double-period inheritance test on the previous period's resolved
entry: `if prev_row and prev_row['is_double']: if prev_row['day'] ==
day_name: row = prev_row`. -/
def inherit (day : String) (prev : Option TTRow) : Option TTRow :=
  match prev with
  | some r => if r.is_double && decide (r.day = day) then some r else none
  | none => none

@[simp] theorem inherit_none (day : String) : inherit day none = none := rfl

@[simp] theorem inherit_some (day : String) (r : TTRow) :
    inherit day (some r)
      = if r.is_double && decide (r.day = day) then some r else none := rfl

/-- One iteration of the resolution loop of `_handle_home`: state is the
`schedule_entries` association list for the current day together with
`prev_period`. -/
def step (db : TTDB) (day : String) (date : Nat)
    (st : List (Nat × TTRow) × Option Nat) (p : Nat) : List (Nat × TTRow) × Option Nat :=
  let row := orOpt (baseQ3 db day date p)
      (match st.2 with
       | some pp => inherit day (st.1.lookup pp)
       | none => none)
  (match row with
   | some r => st.1 ++ [(p, r)]
   | none => st.1, some p)

/-- The `schedule_entries` mapping produced for one day column:
the loop `for slot in SCHEDULE_PATTERN` over the period entries. -/
def resolveEntries (db : TTDB) (day : String) (date : Nat) : List (Nat × TTRow) :=
  (List.foldl (step db day date) ([], none) schedulePeriods).1

/-- The effective slot shown for `(day, date, period)`:
`schedule_entries.get((day_idx, period))`. -/
def resolve (db : TTDB) (day : String) (date : Nat) (p : Nat) : Option TTRow :=
  (resolveEntries db day date).lookup p

/-- Recursion form of the loop that carries the previous period's
resolved row directly instead of looking it up in the accumulator. -/
def chainEntries (db : TTDB) (day : String) (date : Nat) :
    List Nat → Option TTRow → List (Nat × TTRow)
  | [], _ => []
  | q :: rest, prev =>
    match orOpt (baseQ3 db day date q) (inherit day prev) with
    | some r => (q, r) :: chainEntries db day date rest (some r)
    | none => chainEntries db day date rest none

/-- The row the loop computes for period `p`, in carried form. -/
def chainRow (db : TTDB) (day : String) (date : Nat) :
    List Nat → Option TTRow → Nat → Option TTRow
  | [], _, _ => none
  | q :: rest, prev, p =>
    if q = p then orOpt (baseQ3 db day date q) (inherit day prev)
    else chainRow db day date rest (orOpt (baseQ3 db day date q) (inherit day prev)) p

theorem lookup_append {β : Type} (l1 l2 : List (Nat × β)) (k : Nat) :
    (l1 ++ l2).lookup k = orOpt (l1.lookup k) (l2.lookup k) := by
  induction l1 with
  | nil => simp [List.lookup]
  | cons a l ih =>
    cases a with
    | mk a1 a2 =>
      by_cases h : k = a1
      · have h' : (k == a1) = true := by simpa using h
        simp [List.lookup, h']
      · have h' : (k == a1) = false := by simpa using h
        simp [List.lookup, h', ih]

/-- The accumulator form of the loop agrees with the carried form. -/
theorem foldl_step_eq (db : TTDB) (day : String) (date : Nat) :
    ∀ (l : List Nat) (es : List (Nat × TTRow)) (pv : Option Nat),
      l.Nodup → (∀ p ∈ l, es.lookup p = none) →
      (List.foldl (step db day date) (es, pv) l).1
        = es ++ chainEntries db day date l
            (match pv with
             | some pp => es.lookup pp
             | none => none) := by
  intro l
  induction l with
  | nil => intro es pv _ _; simp [chainEntries]
  | cons q rest ih =>
    intro es pv hnd hlk
    have hq : es.lookup q = none := hlk q (by simp)
    have hqrest : q ∉ rest := (List.nodup_cons.mp hnd).1
    have hndr : rest.Nodup := (List.nodup_cons.mp hnd).2
    have hstep : ∀ (r : TTRow),
        (∀ p ∈ rest, (es ++ [(q, r)]).lookup p = none) ∧
        (es ++ [(q, r)]).lookup q = some r := by
      intro r
      constructor
      · intro p hp
        rw [lookup_append, hlk p (by simp [hp])]
        have hpq : p ≠ q := by intro h; exact hqrest (h ▸ hp)
        have hne : (p == q) = false := by simpa using hpq
        simp [List.lookup, hne]
      · rw [lookup_append, hq]
        simp [List.lookup]
    cases pv with
    | none =>
      simp only [List.foldl_cons, step]
      cases hrow : baseQ3 db day date q with
      | some r =>
        simp only [hrow, orOpt_some]
        rw [ih (es ++ [(q, r)]) (some q) hndr ((hstep r).1)]
        simp only [chainEntries, hrow, inherit_none, orOpt_none_right, orOpt_some,
          (hstep r).2]
        simp
      | none =>
        simp only [hrow, orOpt_none, orOpt_none_right]
        rw [ih es (some q) hndr (fun p hp => hlk p (by simp [hp]))]
        simp only [chainEntries, hrow, inherit_none, orOpt_none_right, orOpt_none, hq]
    | some pp =>
      simp only [List.foldl_cons, step]
      cases hrow : orOpt (baseQ3 db day date q) (inherit day (es.lookup pp)) with
      | some r =>
        rw [ih (es ++ [(q, r)]) (some q) hndr ((hstep r).1)]
        simp only [chainEntries, hrow, (hstep r).2]
        simp
      | none =>
        rw [ih es (some q) hndr (fun p hp => hlk p (by simp [hp]))]
        simp only [chainEntries, hrow, hq]

theorem chainRow_not_mem (db : TTDB) (day : String) (date : Nat) :
    ∀ (l : List Nat) (prev : Option TTRow) (p : Nat), p ∉ l →
      chainRow db day date l prev p = none := by
  intro l
  induction l with
  | nil => intro prev p _; rfl
  | cons q rest ih =>
    intro prev p hp
    have h1 : q ≠ p := fun h => hp (by simp [h])
    have h2 : p ∉ rest := fun h => hp (by simp [h])
    simp [chainRow, h1, ih _ _ h2]

theorem lookup_chainEntries_not_mem (db : TTDB) (day : String) (date : Nat) :
    ∀ (l : List Nat) (prev : Option TTRow) (p : Nat), p ∉ l →
      (chainEntries db day date l prev).lookup p = none := by
  intro l
  induction l with
  | nil => intro prev p _; rfl
  | cons q rest ih =>
    intro prev p hp
    have h1 : p ≠ q := fun h => hp (by simp [h])
    have h2 : p ∉ rest := fun h => hp (by simp [h])
    simp only [chainEntries]
    cases hrow : orOpt (baseQ3 db day date q) (inherit day prev) with
    | some r =>
      have h1' : (p == q) = false := by simpa using h1
      simp [List.lookup, h1', ih _ _ h2]
    | none => exact ih _ _ h2

theorem lookup_chainEntries (db : TTDB) (day : String) (date : Nat) :
    ∀ (l : List Nat) (prev : Option TTRow) (p : Nat), l.Nodup →
      (chainEntries db day date l prev).lookup p = chainRow db day date l prev p := by
  intro l
  induction l with
  | nil => intro prev p _; rfl
  | cons q rest ih =>
    intro prev p hnd
    have hqrest : q ∉ rest := (List.nodup_cons.mp hnd).1
    have hndr : rest.Nodup := (List.nodup_cons.mp hnd).2
    simp only [chainEntries, chainRow]
    cases hrow : orOpt (baseQ3 db day date q) (inherit day prev) with
    | some r =>
      by_cases hpq : q = p
      · subst hpq
        simp [List.lookup]
      · have hne : (p == q) = false := by
          simpa using fun h => hpq h.symm
        simp [List.lookup, hne, hpq, ih _ _ hndr]
    | none =>
      by_cases hpq : q = p
      · subst hpq
        simp [hrow, lookup_chainEntries_not_mem db day date rest none q hqrest]
      · simp [hpq, ih _ _ hndr]

/-- The effective slot equals the carried-recursion form over the
schedule pattern. -/
theorem resolve_eq_chainRow (db : TTDB) (day : String) (date : Nat) (p : Nat) :
    resolve db day date p = chainRow db day date schedulePeriods none p := by
  have hnd : schedulePeriods.Nodup := by decide
  unfold resolve resolveEntries
  rw [foldl_step_eq db day date schedulePeriods [] none hnd (by intro q _; rfl)]
  simp only [List.nil_append]
  exact lookup_chainEntries db day date schedulePeriods none p hnd

/-- The period entry of `SCHEDULE_PATTERN` immediately before a given
period entry (`prev_period` at the time period `q` is processed). -/
def prevPeriod (q : Nat) : Option Nat :=
  if q = 2 then some 1
  else if q = 3 then some 2
  else if q = 4 then some 3
  else if q = 5 then some 4
  else if q = 6 then some 5
  else if q = 8 then some 6
  else if q = 9 then some 8
  else none

theorem prevPeriod_facts (q p : Nat) (h : prevPeriod q = some p) :
    p ∈ schedulePeriods ∧ q ∈ schedulePeriods ∧ p < q := by
  unfold prevPeriod at h
  split_ifs at h with h1 h2 h3 h4 h5 h6 h7
  all_goals cases h
  all_goals subst_vars
  all_goals decide

theorem exactQ_some (db : TTDB) (date period : Nat) (r : TTRow)
    (h : exactQ db date period = some r) :
    r ∈ db ∧ r.date = some date ∧ r.period = period := by
  refine ⟨List.mem_of_find?_eq_some h, ?_, ?_⟩ <;>
    · have hp := List.find?_some h
      simp only [decide_eq_true_eq] at hp
      tauto

theorem exactQ_none (db : TTDB) (date period : Nat)
    (h : ∀ r ∈ db, ¬(r.date = some date ∧ r.period = period)) :
    exactQ db date period = none := by
  apply List.find?_eq_none.mpr
  intro r hr
  simpa using h r hr

theorem templQ_some (db : TTDB) (day : String) (period : Nat) (r : TTRow)
    (h : templQ db day period = some r) :
    r ∈ db ∧ r.date = none ∧ r.day = day ∧ r.period = period := by
  refine ⟨List.mem_of_find?_eq_some h, ?_, ?_, ?_⟩ <;>
    · have hp := List.find?_some h
      simp only [decide_eq_true_eq] at hp
      tauto

theorem pastP_spec (date : Nat) (day : String) (period : Nat) (r : TTRow)
    (h : pastP date day period r = true) :
    r.day = day ∧ r.period = period ∧ ∃ d, r.date = some d ∧ d < date := by
  unfold pastP at h
  cases hd : r.date with
  | none => rw [hd] at h; simp at h
  | some d =>
    rw [hd] at h
    simp only [Bool.and_eq_true, decide_eq_true_eq] at h
    exact ⟨h.1.2, h.2, d, rfl, h.1.1⟩

theorem laterOf_mem (a b : TTRow) : laterOf a b = a ∨ laterOf a b = b := by
  unfold laterOf
  cases ha : a.date with
  | none => simp
  | some da =>
    cases hb : b.date with
    | none => simp
    | some db' =>
      by_cases h : da < db'
      · right; simp [h]
      · left; simp [h]

theorem foldl_laterOf_mem :
    ∀ (xs : List TTRow) (x : TTRow), xs.foldl laterOf x ∈ x :: xs := by
  intro xs
  induction xs with
  | nil => intro x; simp
  | cons s xs ih =>
    intro x
    simp only [List.foldl_cons]
    rcases laterOf_mem x s with h | h
    · rw [h]
      have h2 := ih x
      simp only [List.mem_cons] at h2 ⊢
      tauto
    · rw [h]
      have h2 := ih s
      simp only [List.mem_cons] at h2 ⊢
      tauto

theorem foldl_laterOf_max :
    ∀ (xs : List TTRow) (x : TTRow) (dx : Nat), x.date = some dx →
      (∀ s ∈ xs, ∃ ds, s.date = some ds) →
      ∃ dr, (xs.foldl laterOf x).date = some dr ∧ dx ≤ dr ∧
        ∀ s ∈ xs, ∀ ds, s.date = some ds → ds ≤ dr := by
  intro xs
  induction xs with
  | nil =>
    intro x dx hx _
    exact ⟨dx, hx, le_refl dx, by simp⟩
  | cons s xs ih =>
    intro x dx hx hall
    obtain ⟨ds, hs⟩ := hall s (by simp)
    have hallr : ∀ t ∈ xs, ∃ dt, t.date = some dt := fun t ht => hall t (by simp [ht])
    simp only [List.foldl_cons]
    by_cases hlt : dx < ds
    · have hl : laterOf x s = s := by
        unfold laterOf
        rw [hx, hs]
        simp [hlt]
      rw [hl]
      obtain ⟨dr, hdr, hge, hmax⟩ := ih s ds hs hallr
      refine ⟨dr, hdr, le_of_lt (lt_of_lt_of_le hlt hge), ?_⟩
      intro t ht dt hdt
      rcases List.mem_cons.mp ht with h | h
      · subst h; rw [hs] at hdt; cases hdt; exact hge
      · exact hmax t h dt hdt
    · have hl : laterOf x s = x := by
        unfold laterOf
        rw [hx, hs]
        simp [hlt]
      rw [hl]
      obtain ⟨dr, hdr, hge, hmax⟩ := ih x dx hx hallr
      refine ⟨dr, hdr, hge, ?_⟩
      intro t ht dt hdt
      rcases List.mem_cons.mp ht with h | h
      · subst h; rw [hs] at hdt; cases hdt
        exact le_trans (Nat.le_of_not_lt hlt) hge
      · exact hmax t h dt hdt

theorem pastQ_some (db : TTDB) (date : Nat) (day : String) (period : Nat) (r : TTRow)
    (h : pastQ db date day period = some r) :
    r ∈ db ∧ pastP date day period r = true := by
  unfold pastQ at h
  cases hf : db.filter (pastP date day period) with
  | nil => rw [hf] at h; cases h
  | cons x xs =>
    rw [hf] at h
    cases h
    have hmem : xs.foldl laterOf x ∈ x :: xs := foldl_laterOf_mem xs x
    rw [← hf] at hmem
    exact ⟨List.mem_of_mem_filter hmem, List.of_mem_filter hmem⟩

/-- When a matching past row exists, `pastQ` returns a match whose date
is at least every match's date. -/
theorem pastQ_max (db : TTDB) (date : Nat) (day : String) (period : Nat) (r : TTRow)
    (h : pastQ db date day period = some r) :
    ∀ s ∈ db, pastP date day period s = true →
      ∀ ds dr, s.date = some ds → r.date = some dr → ds ≤ dr := by
  unfold pastQ at h
  cases hf : db.filter (pastP date day period) with
  | nil => rw [hf] at h; cases h
  | cons x xs =>
    rw [hf] at h
    cases h
    intro s hs hsp ds dr hds hdr
    have hsm : s ∈ x :: xs := by
      rw [← hf]
      exact List.mem_filter.mpr ⟨hs, hsp⟩
    have hxd : ∃ dx, x.date = some dx := by
      have hx : x ∈ x :: xs := by simp
      rw [← hf] at hx
      obtain ⟨_, _, d, hd, _⟩ := pastP_spec date day period x (List.of_mem_filter hx)
      exact ⟨d, hd⟩
    obtain ⟨dx, hdx⟩ := hxd
    have hallxs : ∀ t ∈ xs, ∃ dt, t.date = some dt := by
      intro t ht
      have ht' : t ∈ x :: xs := by simp [ht]
      rw [← hf] at ht'
      obtain ⟨_, _, d, hd, _⟩ := pastP_spec date day period t (List.of_mem_filter ht')
      exact ⟨d, hd⟩
    obtain ⟨dR, hdR, hgex, hmax⟩ := foldl_laterOf_max xs x dx hdx hallxs
    rw [hdr] at hdR
    cases hdR
    rcases List.mem_cons.mp hsm with hcase | hcase
    · subst hcase
      rw [hdx] at hds
      cases hds
      exact hgex
    · exact hmax s hcase ds hds

/-- Precedence unfolding of the resolution loop at each schedule period:
rules 1–3, then double-period inheritance from the previous period's
resolved entry. -/
theorem resolve_unfold (db : TTDB) (day : String) (date : Nat) (p : Nat)
    (hp : p ∈ schedulePeriods) :
    resolve db day date p =
      orOpt (baseQ3 db day date p)
        (match prevPeriod p with
         | some pp => inherit day (resolve db day date pp)
         | none => none) := by
  have hp' : p = 1 ∨ p = 2 ∨ p = 3 ∨ p = 4 ∨ p = 5 ∨ p = 6 ∨ p = 8 ∨ p = 9 := by
    simpa [schedulePeriods] using hp
  rcases hp' with rfl | rfl | rfl | rfl | rfl | rfl | rfl | rfl <;>
    · simp only [resolve_eq_chainRow, prevPeriod]
      norm_num [schedulePeriods, chainRow]

/-- Template row: Monday period 1, double period. -/
def rowT1 : TTRow :=
  ⟨1, some 1, none, 1, true, 1, "Montag", none, none, some 1, none, none⟩

/-- Template row: Monday period 2, single period. -/
def rowT2 : TTRow :=
  ⟨2, some 1, none, 2, false, 2, "Montag", none, none, some 1, none, none⟩

/-- Override row: Monday period 1 pinned to date 5, cancelled. -/
def rowO5 : TTRow :=
  ⟨3, some 1, none, 1, false, 1, "Montag", none, some 5, some 1, none, some "cancelled"⟩

/-- Template row: Monday period 6, double period (before the long break,
after which the pattern continues with period 8). -/
def rowD6 : TTRow :=
  ⟨4, some 1, none, 6, true, 6, "Montag", none, none, some 1, none, none⟩

/-- C1: For every date, weekday and schedule period, timetable resolution
returns the first match in strict precedence order: (1) the exact-date row
for (D, P); (2) otherwise the most recent past override for (W, P);
(3) otherwise the template row for (W, P); (4) otherwise the immediately
preceding schedule period's resolved row when that row is a double period
whose weekday equals W; `none` (empty slot) when no rule yields a row. -/
theorem timetable_resolution_precedence (db : TTDB) (day : String) (date : Nat)
    (p : Nat) (hp : p ∈ schedulePeriods) :
    resolve db day date p =
      orOpt (exactQ db date p)
        (orOpt (pastQ db date day p)
          (orOpt (templQ db day p)
            (match prevPeriod p with
             | some pp => inherit day (resolve db day date pp)
             | none => none))) := by
  rw [resolve_unfold db day date p hp]
  unfold baseQ3
  rw [orOpt_assoc, orOpt_assoc]

theorem timetable_resolution_precedence_witness :
    (2 ∈ schedulePeriods) ∧
    resolve [rowT1, rowT2] "Montag" 0 2 =
      orOpt (exactQ [rowT1, rowT2] 0 2)
        (orOpt (pastQ [rowT1, rowT2] 0 "Montag" 2)
          (orOpt (templQ [rowT1, rowT2] "Montag" 2)
            (match prevPeriod 2 with
             | some pp => inherit "Montag" (resolve [rowT1, rowT2] "Montag" 0 pp)
             | none => none))) :=
  ⟨by decide, timetable_resolution_precedence [rowT1, rowT2] "Montag" 0 2 (by decide)⟩

/-- C7: a past override at date `D0 < D1` for the same weekday/period,
with no exact row at `D1` and no matching row strictly between `D0` and
`D1`, carries forward: resolving `D1` returns a row dated `D0` for that
weekday and period. -/
theorem past_override_carries_forward (db : TTDB) (W : String) (D0 D1 P : Nat)
    (r0 : TTRow) (hP : P ∈ schedulePeriods) (hr0 : r0 ∈ db)
    (hr0d : r0.date = some D0) (hr0w : r0.day = W) (hr0p : r0.period = P)
    (h01 : D0 < D1)
    (hnoD1 : ∀ r ∈ db, ¬(r.date = some D1 ∧ r.period = P))
    (hbetween : ∀ r ∈ db, r.day = W → r.period = P →
      ∀ d, r.date = some d → ¬(D0 < d ∧ d < D1)) :
    ∃ r ∈ db, resolve db W D1 P = some r ∧ r.date = some D0 ∧ r.day = W ∧
      r.period = P := by
  have hexact : exactQ db D1 P = none := exactQ_none db D1 P hnoD1
  have hr0m : pastP D1 W P r0 = true := by
    unfold pastP
    rw [hr0d]
    simp [h01, hr0w, hr0p]
  have hne : db.filter (pastP D1 W P) ≠ [] := by
    intro hf
    have hmem : r0 ∈ db.filter (pastP D1 W P) := List.mem_filter.mpr ⟨hr0, hr0m⟩
    rw [hf] at hmem
    cases hmem
  obtain ⟨r, hr⟩ : ∃ r, pastQ db D1 W P = some r := by
    unfold pastQ
    cases hf : db.filter (pastP D1 W P) with
    | nil => exact absurd hf hne
    | cons x xs => exact ⟨xs.foldl laterOf x, rfl⟩
  obtain ⟨hrdb, hrp⟩ := pastQ_some db D1 W P r hr
  obtain ⟨hrw, hrper, dr, hrd, hrlt⟩ := pastP_spec D1 W P r hrp
  have hge : D0 ≤ dr := pastQ_max db D1 W P r hr r0 hr0 hr0m D0 dr hr0d hrd
  have hle : dr ≤ D0 := by
    by_contra hgt
    exact hbetween r hrdb hrw hrper dr hrd ⟨Nat.lt_of_not_le hgt, hrlt⟩
  have hdr : dr = D0 := le_antisymm hle hge
  refine ⟨r, hrdb, ?_, by rw [hrd, hdr], hrw, hrper⟩
  rw [resolve_unfold db W D1 P hP]
  unfold baseQ3
  rw [hexact, hr]
  simp

theorem past_override_carries_forward_witness :
    (5 < 10 ∧ rowO5 ∈ ([rowO5] : TTDB)) ∧
    ∃ r ∈ ([rowO5] : TTDB), resolve [rowO5] "Montag" 10 1 = some r ∧
      r.date = some 5 ∧ r.day = "Montag" ∧ r.period = 1 :=
  ⟨by decide,
    past_override_carries_forward [rowO5] "Montag" 5 10 1 rowO5 (by decide)
      (by decide) (by decide) (by decide) (by decide) (by decide) (by decide)
      (by decide)⟩

theorem baseQ3_some_period (db : TTDB) (day : String) (date p : Nat) (r : TTRow)
    (h : baseQ3 db day date p = some r) : r.period = p := by
  unfold baseQ3 at h
  cases he : exactQ db date p with
  | some x =>
    rw [he, orOpt_some] at h
    injection h with hxr
    subst hxr
    exact (exactQ_some db date p x he).2.2
  | none =>
    rw [he, orOpt_none] at h
    cases hpa : pastQ db date day p with
    | some x =>
      rw [hpa, orOpt_some] at h
      injection h with hxr
      subst hxr
      exact (pastP_spec date day p x (pastQ_some db date day p x hpa).2).2.1
    | none =>
      rw [hpa, orOpt_none] at h
      exact (templQ_some db day p r h).2.2.2

theorem chainRow_period_le (db : TTDB) (day : String) (date : Nat) :
    ∀ (l : List Nat) (prev : Option TTRow) (p : Nat) (R : TTRow),
      List.Pairwise (· < ·) l →
      (∀ S, prev = some S → ∀ q ∈ l, S.period < q) →
      chainRow db day date l prev p = some R → R.period ≤ p := by
  intro l
  induction l with
  | nil => intro prev p R _ _ h; cases h
  | cons q rest ih =>
    intro prev p R hpw hprev h
    have hpw' : List.Pairwise (· < ·) rest := (List.pairwise_cons.mp hpw).2
    have hqlt : ∀ q' ∈ rest, q < q' := (List.pairwise_cons.mp hpw).1
    by_cases hqp : q = p
    · subst hqp
      simp only [chainRow, if_pos rfl] at h
      cases hb : baseQ3 db day date q with
      | some r =>
        rw [hb, orOpt_some] at h
        injection h with hrR
        subst hrR
        exact le_of_eq (baseQ3_some_period db day date q r hb)
      | none =>
        rw [hb, orOpt_none] at h
        cases hprevc : prev with
        | none => rw [hprevc] at h; cases h
        | some S =>
          rw [hprevc] at h
          simp only [inherit_some] at h
          by_cases hc : S.is_double && decide (S.day = day)
          · rw [if_pos hc] at h
            injection h with hSR
            subst hSR
            exact le_of_lt (hprev S hprevc q (by simp))
          · rw [if_neg hc] at h
            cases h
    · simp only [chainRow, if_neg hqp] at h
      refine ih _ p R hpw' ?_ h
      intro S hS q' hq'
      cases hb : baseQ3 db day date q with
      | some r =>
        rw [hb, orOpt_some] at hS
        injection hS with hrS
        subst hrS
        rw [baseQ3_some_period db day date q r hb]
        exact hqlt q' hq'
      | none =>
        rw [hb, orOpt_none] at hS
        cases hprevc : prev with
        | none => rw [hprevc] at hS; cases hS
        | some S0 =>
          rw [hprevc] at hS
          simp only [inherit_some] at hS
          by_cases hc : S0.is_double && decide (S0.day = day)
          · rw [if_pos hc] at hS
            injection hS with hS0
            subst hS0
            exact hprev S0 hprevc q' (by simp [hq'])
          · rw [if_neg hc] at hS
            cases hS

/-- A resolved row's `period` column never exceeds the period being
resolved (its own rows carry exactly this period; inherited rows come from
strictly earlier periods). -/
theorem resolve_period_le (db : TTDB) (day : String) (date p : Nat) (R : TTRow)
    (hp : p ∈ schedulePeriods) (h : resolve db day date p = some R) :
    R.period ≤ p := by
  rw [resolve_eq_chainRow] at h
  exact chainRow_period_le db day date schedulePeriods none p R (by decide)
    (by intro S hS; cases hS) h

/-- C8 counterexample: with a double-period template at Monday period 1
and an ordinary template at Monday period 2, period 1's resolved row is a
double period on the right weekday, yet period 2 resolves to its own
template row, not to period 1's slot — refuting the unconditional "iff"
of the claim. -/
theorem double_period_iff_counterexample :
    resolve [rowT1, rowT2] "Montag" 0 1 = some rowT1 ∧
    rowT1.is_double = true ∧ rowT1.day = "Montag" ∧
    resolve [rowT1, rowT2] "Montag" 0 2 ≠ resolve [rowT1, rowT2] "Montag" 0 1 := by
  decide

/-- C8 amended: for consecutive schedule periods `p` then `q`, resolving
`q` yields the same row as `p` iff `p`'s resolved row is a double period
on weekday `W` *and `q` has no exact-date, past-override or template row
of its own*; and whenever `p`'s resolved row is not such a double period,
`q` resolves independently, from its own three-rule match. -/
theorem double_period_inheritance (db : TTDB) (day : String) (date : Nat)
    (p q : Nat) (hpq : prevPeriod q = some p) :
    ((∃ R, resolve db day date q = some R ∧ resolve db day date p = some R) ↔
      (∃ R, resolve db day date p = some R ∧ R.is_double = true ∧
        R.day = day ∧ baseQ3 db day date q = none)) ∧
    (¬(∃ R, resolve db day date p = some R ∧ R.is_double = true ∧ R.day = day) →
      resolve db day date q = baseQ3 db day date q) := by
  obtain ⟨hpmem, hqmem, hplt⟩ := prevPeriod_facts q p hpq
  have hunfold : resolve db day date q =
      orOpt (baseQ3 db day date q) (inherit day (resolve db day date p)) := by
    rw [resolve_unfold db day date q hqmem, hpq]
  constructor
  · constructor
    · rintro ⟨R, hq, hp⟩
      cases hb : baseQ3 db day date q with
      | some r =>
        rw [hunfold, hb, orOpt_some] at hq
        injection hq with hrR
        subst hrR
        have h1 : r.period = q := baseQ3_some_period db day date q r hb
        have h2 : r.period ≤ p := resolve_period_le db day date p r hpmem hp
        omega
      | none =>
        rw [hunfold, hb, orOpt_none, hp] at hq
        simp only [inherit_some] at hq
        by_cases hc : R.is_double && decide (R.day = day)
        · simp only [Bool.and_eq_true, decide_eq_true_eq] at hc
          exact ⟨R, hp, hc.1, hc.2, rfl⟩
        · rw [if_neg hc] at hq
          cases hq
    · rintro ⟨R, hp, hd, hw, hb⟩
      refine ⟨R, ?_, hp⟩
      rw [hunfold, hb, orOpt_none, hp]
      simp [hd, hw]
  · intro hno
    rw [hunfold]
    cases hres : resolve db day date p with
    | none => simp
    | some R =>
      simp only [inherit_some]
      by_cases hc : R.is_double && decide (R.day = day)
      · simp only [Bool.and_eq_true, decide_eq_true_eq] at hc
        exact absurd ⟨R, hres, hc.1, hc.2⟩ hno
      · rw [if_neg hc]
        simp

theorem double_period_inheritance_witness :
    (prevPeriod 2 = some 1) ∧
    (((∃ R, resolve [rowT1] "Montag" 0 2 = some R ∧
        resolve [rowT1] "Montag" 0 1 = some R) ↔
      (∃ R, resolve [rowT1] "Montag" 0 1 = some R ∧ R.is_double = true ∧
        R.day = "Montag" ∧ baseQ3 [rowT1] "Montag" 0 2 = none)) ∧
    (¬(∃ R, resolve [rowT1] "Montag" 0 1 = some R ∧ R.is_double = true ∧
        R.day = "Montag") →
      resolve [rowT1] "Montag" 0 2 = baseQ3 [rowT1] "Montag" 0 2)) :=
  ⟨by decide, double_period_inheritance [rowT1] "Montag" 0 1 2 (by decide)⟩

theorem schedulePeriods_length : schedulePeriods.length = 8 := rfl

theorem getElem?_lt_length (k : Nat) (pk : Nat)
    (hk : schedulePeriods[k]? = some pk) : k < 8 := by
  by_contra hge
  rw [List.getElem?_eq_none (by simpa [schedulePeriods_length] using hge)] at hk
  cases hk

theorem getElem?_mem_schedule (k : Nat) (pk : Nat)
    (hk : schedulePeriods[k]? = some pk) : pk ∈ schedulePeriods := by
  have hlt := getElem?_lt_length k pk hk
  interval_cases k <;> simp_all [schedulePeriods]

/-- Adjacent entries of the schedule pattern are linked by `prevPeriod`. -/
theorem consecutive_prevPeriod (k : Nat) (pk pk1 : Nat)
    (hk : schedulePeriods[k]? = some pk)
    (hk1 : schedulePeriods[k + 1]? = some pk1) :
    prevPeriod pk1 = some pk := by
  have hlt := getElem?_lt_length (k + 1) pk1 hk1
  have hlt' : k < 7 := by omega
  interval_cases k <;>
    (simp only [schedulePeriods] at hk hk1
     simp at hk hk1
     subst hk
     subst hk1
     rfl)

/-- C10: a resolved double-period row on the right weekday becomes the
effective slot of *every* later schedule-pattern period that has no
exact-date, past-override or template row of its own — chaining through
breaks and skipped period numbers, not only the immediately following
period. -/
theorem double_period_chains (db : TTDB) (day : String) (date : Nat) (R : TTRow)
    (i j pi pj : Nat)
    (hi : schedulePeriods[i]? = some pi) (hj : schedulePeriods[j]? = some pj)
    (hij : i < j)
    (hres : resolve db day date pi = some R)
    (hd : R.is_double = true) (hw : R.day = day)
    (hnone : ∀ k pk, i < k → k ≤ j → schedulePeriods[k]? = some pk →
      baseQ3 db day date pk = none) :
    resolve db day date pj = some R := by
  have hij' : i + 1 ≤ j := hij
  induction j, hij' using Nat.le_induction generalizing pj with
  | base =>
    have hprev := consecutive_prevPeriod i pi pj hi hj
    rw [resolve_unfold db day date pj (getElem?_mem_schedule _ _ hj), hprev,
      hnone (i + 1) pj (by omega) (by omega) hj, orOpt_none]
    show inherit day (resolve db day date pi) = some R
    rw [hres]
    simp [hd, hw]
  | succ n hn ihn =>
    have hlt : n + 1 < 8 := getElem?_lt_length (n + 1) pj hj
    have hlt' : n < schedulePeriods.length := by
      rw [schedulePeriods_length]; omega
    have hgn : schedulePeriods[n]? = some schedulePeriods[n] :=
      List.getElem?_eq_getElem hlt'
    have hresn : resolve db day date schedulePeriods[n] = some R :=
      ihn schedulePeriods[n] hgn (by omega)
        (fun k pk hik hkn hk => hnone k pk hik (by omega) hk)
    have hprev := consecutive_prevPeriod n schedulePeriods[n] pj hgn hj
    rw [resolve_unfold db day date pj (getElem?_mem_schedule _ _ hj), hprev,
      hnone (n + 1) pj (by omega) (by omega) hj, orOpt_none]
    show inherit day (resolve db day date schedulePeriods[n]) = some R
    rw [hresn]
    simp [hd, hw]

theorem double_period_chains_witness :
    (schedulePeriods[5]? = some 6 ∧ schedulePeriods[6]? = some 8 ∧
      resolve [rowD6] "Montag" 0 6 = some rowD6 ∧ rowD6.is_double = true) ∧
    resolve [rowD6] "Montag" 0 8 = some rowD6 :=
  ⟨by decide,
    double_period_chains [rowD6] "Montag" 0 rowD6 5 6 6 8 (by decide) (by decide)
      (by decide) (by decide) (by decide) (by decide)
      (by
        intro k pk h1 h2 h3
        have hk : k = 6 := by omega
        subst hk
        have hpk : pk = 8 := by simpa [schedulePeriods] using h3.symm
        subst hpk
        decide)⟩

/-! ## Lesson status override lifecycle -/

/-- One row of the `change_log` table, as inserted by `_log_change`. -/
structure LogRecord where
  action : String
  table_name : String
  record_id : Option Nat
  field_name : String
  old_value : String
  new_value : String
  comment : Option String
deriving DecidableEq

/-- `SELECT * FROM timetable WHERE id=?`, `fetchone`. -/
def findById (db : TTDB) (tid : Nat) : Option TTRow :=
  db.find? (fun r => decide (r.id = tid))

/-- The NULL-aware override-matching predicate built by
`_post_lesson_update_status`: `date = ?` and `period = ?` plus, for each
of `subject_id`, `class_id`, `course_id`, either `col = ?` or
`col IS NULL` depending on the template's value — i.e. `Option` equality
with the template's columns. -/
def overrideMatch (d : Nat) (t : TTRow) (r : TTRow) : Bool :=
  decide (r.date = some d) && decide (r.period = t.period) &&
    decide (r.subject_id = t.subject_id) && decide (r.class_id = t.class_id) &&
    decide (r.course_id = t.course_id)

/-- `_post_lesson_update_status` (setStatus): look up the referenced row,
search for an existing row matching the NULL-aware tuple for the target
date, update its `status` in place if found, otherwise insert a copy of
the referenced row's fields with the target date and status (`newId` is
the store-assigned primary key of the inserted row).  The handler then
redirects; it contains no `_log_change` call, so the emitted audit-log
list is always empty.  (The 400 guard on missing form fields is request
parsing, outside this model.) -/
def updateStatus (db : TTDB) (tid : Nat) (d : Nat) (status : String) (newId : Nat) :
    Except String (TTDB × List LogRecord) :=
  match findById db tid with
  | none => .error "404 Original timetable entry not found."
  | some t =>
    match db.find? (overrideMatch d t) with
    | some ex =>
      .ok (db.map (fun r => if r.id = ex.id then { r with status := some status } else r), [])
    | none =>
      .ok (db ++ [{ t with id := newId, date := some d, status := some status }], [])

/-- `_post_lesson_uncancel` (clearOverride): 400 only when no
`timetable_id` was posted; otherwise
`DELETE FROM timetable WHERE id = ? AND date IS NOT NULL` and a redirect
— template rows (`date IS NULL`) are silently filtered out of the delete,
and no audit-log record is written. -/
def uncancel (db : TTDB) (tidOpt : Option Nat) :
    Except String (TTDB × List LogRecord) :=
  match tidOpt with
  | none => .error "400 Missing timetable_id."
  | some tid =>
    .ok (db.filter (fun r => !(decide (r.id = tid) && r.date.isSome)), [])

theorem find?_append {α : Type} (l1 l2 : List α) (p : α → Bool) :
    (l1 ++ l2).find? p = orOpt (l1.find? p) (l2.find? p) := by
  induction l1 with
  | nil => simp
  | cons a l ih =>
    cases hp : p a with
    | true => simp [List.find?_cons, hp]
    | false => simp [List.find?_cons, hp, ih]

theorem findById_mem (db : TTDB) (tid : Nat) (t : TTRow)
    (h : findById db tid = some t) : t ∈ db ∧ t.id = tid := by
  refine ⟨List.mem_of_find?_eq_some h, ?_⟩
  have hp := List.find?_some h
  simpa using hp

theorem overrideMatch_spec (d : Nat) (t r : TTRow) (h : overrideMatch d t r = true) :
    r.date = some d ∧ r.period = t.period ∧ r.subject_id = t.subject_id ∧
      r.class_id = t.class_id ∧ r.course_id = t.course_id := by
  unfold overrideMatch at h
  simp only [Bool.and_eq_true, decide_eq_true_eq] at h
  tauto

/-- Changing only `status` does not affect override matching. -/
theorem overrideMatch_status (d : Nat) (t r : TTRow) (s : Option String) :
    overrideMatch d t { r with status := s } = overrideMatch d t r := rfl

theorem map_eq_self_of {α : Type} (l : List α) (f : α → α)
    (h : ∀ a ∈ l, f a = a) : l.map f = l := by
  induction l with
  | nil => rfl
  | cons a l ih =>
    simp only [List.map_cons]
    rw [h a (by simp), ih (fun b hb => h b (by simp [hb]))]

/-- C3: on a template row `t`, `setStatus` performs find-or-create on the
NULL-aware 4-tuple: when a matching row exists, the store becomes exactly
the old store with that row's `status` — and nothing else — set to the
requested status; when none exists, the store becomes exactly the old
store plus one new row copying all of `t`'s fields with `date` set to the
target date and `status` to the requested status.  Both calls succeed
(emitting no audit log), the second call updates rather than inserts
(same store size); starting from no matching override, the first call
adds exactly the copied row, the second call leaves the store unchanged,
and exactly one matching override row — the copied one — exists
afterwards.  Every template row (`date = none`), in particular `t`,
survives both calls unchanged. -/
theorem setStatus_lifecycle (db : TTDB) (tid d : Nat) (st : String)
    (newId newId2 : Nat) (t : TTRow)
    (hids : (db.map TTRow.id).Nodup)
    (hfind : findById db tid = some t)
    (htempl : t.date = none)
    (hfresh : newId ∉ db.map TTRow.id) :
    ∃ db1 db2,
      updateStatus db tid d st newId = .ok (db1, []) ∧
      updateStatus db1 tid d st newId2 = .ok (db2, []) ∧
      (∀ ex, db.find? (overrideMatch d t) = some ex →
        db1 = db.map
          (fun r => if r.id = ex.id then { r with status := some st } else r)) ∧
      (db.find? (overrideMatch d t) = none →
        db1 = db ++ [{ t with id := newId, date := some d, status := some st }]) ∧
      db2.length = db1.length ∧
      (db.filter (overrideMatch d t) = [] →
        db1 = db ++ [{ t with id := newId, date := some d, status := some st }] ∧
        db1.length = db.length + 1 ∧
        db2 = db1 ∧
        db2.filter (overrideMatch d t)
          = [{ t with id := newId, date := some d, status := some st }] ∧
        (db2.filter (overrideMatch d t)).length = 1) ∧
      (∀ r ∈ db, r.date = none → r ∈ db1 ∧ r ∈ db2) := by
  have hinj : ∀ x ∈ db, ∀ y ∈ db, x.id = y.id → x = y :=
    List.inj_on_of_nodup_map hids
  obtain ⟨htm, htid⟩ := findById_mem db tid t hfind
  cases hex : db.find? (overrideMatch d t) with
  | some ex =>
    -- update branch on both calls
    obtain ⟨hexd, _, _, _, _⟩ :=
      overrideMatch_spec d t ex (List.find?_some hex)
    have hexm : ex ∈ db := List.mem_of_find?_eq_some hex
    have hne : t.id ≠ ex.id := by
      intro h
      have : t = ex := hinj t htm ex hexm h
      rw [this, hexd] at htempl
      cases htempl
    set u : TTRow → TTRow :=
      fun r => if r.id = ex.id then { r with status := some st } else r with hu
    have hut : u t = t := by rw [hu]; simp [hne]
    have huid : ∀ r, (u r).id = r.id := by
      intro r
      rw [hu]
      by_cases h : r.id = ex.id <;> simp [h]
    have humatch : ∀ r, overrideMatch d t (u r) = overrideMatch d t r := by
      intro r
      simp only [hu]
      by_cases h : r.id = ex.id
      · rw [if_pos h]
        rfl
      · rw [if_neg h]
    refine ⟨db.map u, (db.map u).map u, ?_, ?_, ?_, ?_, by simp, ?_, ?_⟩
    · simp only [updateStatus, hfind, hex]
    · have hfind1 : findById (db.map u) tid = some t := by
        unfold findById
        rw [List.find?_map]
        have : ((fun r => decide (r.id = tid)) ∘ u) = fun r => decide (r.id = tid) := by
          funext r
          simp [huid]
        rw [this]
        unfold findById at hfind
        rw [hfind]
        simp [hut]
      have hex1 : (db.map u).find? (overrideMatch d t) = some (u ex) := by
        rw [List.find?_map]
        have : (overrideMatch d t ∘ u) = overrideMatch d t := by
          funext r
          simp [humatch]
        rw [this, hex]
        simp
      simp only [updateStatus, hfind1, hex1, huid]
    · intro ex' h
      injection h with h'
      subst h'
      rw [hu]
    · intro h
      exact Option.noConfusion h
    · intro hfil
      have : ex ∈ db.filter (overrideMatch d t) :=
        List.mem_filter.mpr ⟨hexm, List.find?_some hex⟩
      rw [hfil] at this
      cases this
    · intro r hr hrd
      have hrne : r.id ≠ ex.id := by
        intro h
        have : r = ex := hinj r hr ex hexm h
        rw [this, hexd] at hrd
        cases hrd
      have hur : u r = r := by rw [hu]; simp [hrne]
      constructor
      · exact hur ▸ List.mem_map_of_mem u hr
      · have hr1 : r ∈ db.map u := hur ▸ List.mem_map_of_mem u hr
        exact hur ▸ List.mem_map_of_mem u hr1
  | none =>
    -- insert branch then update branch
    set nr : TTRow := { t with id := newId, date := some d, status := some st } with hnr
    have hnrm : overrideMatch d t nr = true := by
      rw [hnr]
      unfold overrideMatch
      simp
    have hfind1 : findById (db ++ [nr]) tid = some t := by
      unfold findById
      rw [find?_append]
      unfold findById at hfind
      rw [hfind, orOpt_some]
    have hex1 : (db ++ [nr]).find? (overrideMatch d t) = some nr := by
      rw [find?_append, hex, orOpt_none]
      simp [List.find?_cons, hnrm]
    set u2 : TTRow → TTRow :=
      fun r => if r.id = nr.id then { r with status := some st } else r with hu2
    have hu2id : ∀ r, (u2 r).id = r.id := by
      intro r
      rw [hu2]
      by_cases h : r.id = nr.id <;> simp [h]
    have hu2match : ∀ r, overrideMatch d t (u2 r) = overrideMatch d t r := by
      intro r
      simp only [hu2]
      by_cases h : r.id = nr.id
      · rw [if_pos h]
        rfl
      · rw [if_neg h]
    have hnotin : ∀ r ∈ db, r.id ≠ nr.id := by
      intro r hr
      have hnid : nr.id = newId := by rw [hnr]
      rw [hnid]
      intro h
      exact hfresh (h ▸ List.mem_map_of_mem TTRow.id hr)
    refine ⟨db ++ [nr], (db ++ [nr]).map u2, ?_, ?_, ?_, ?_, by simp, ?_, ?_⟩
    · simp only [updateStatus, hfind, hex]
    · simp only [updateStatus, hfind1, hex1]
    · intro ex' h
      exact Option.noConfusion h
    · intro _
      rw [hnr]
    · intro hfil
      have hu2nr : u2 nr = nr := by
        simp [hu2, hnr]
      have hpt : ∀ r ∈ db ++ [nr], u2 r = r := by
        intro r hr
        rcases List.mem_append.mp hr with h | h
        · rw [hu2]
          simp [hnotin r h]
        · have hrnr : r = nr := by simpa using h
          rw [hrnr, hu2nr]
      have hid2 : (db ++ [nr]).map u2 = db ++ [nr] := map_eq_self_of _ _ hpt
      have hdbfil : db.filter (overrideMatch d t) = [] := by
        rw [List.filter_eq_nil_iff]
        intro a ha
        simpa using List.find?_eq_none.mp hex a ha
      have hfil2 : ((db ++ [nr]).map u2).filter (overrideMatch d t) = [nr] := by
        rw [hid2, List.filter_append, hdbfil]
        simp [hnrm]
      refine ⟨by rw [hnr], by simp, hid2, ?_, ?_⟩
      · rw [hfil2]
        try rw [hnr]
      · rw [hfil2]
        rfl
    · intro r hr hrd
      have hr1 : r ∈ db ++ [nr] := by simp [hr]
      have hu2r : u2 r = r := by rw [hu2]; simp [hnotin r hr]
      exact ⟨hr1, hu2r ▸ List.mem_map_of_mem u2 hr1⟩

theorem setStatus_lifecycle_witness :
    (findById [rowT1] 1 = some rowT1 ∧ rowT1.date = none) ∧
    ∃ db1 db2,
      updateStatus [rowT1] 1 7 "cancelled" 9 = .ok (db1, []) ∧
      updateStatus db1 1 7 "cancelled" 10 = .ok (db2, []) ∧
      (∀ ex, List.find? (overrideMatch 7 rowT1) [rowT1] = some ex →
        db1 = List.map
          (fun r => if r.id = ex.id then { r with status := some "cancelled" } else r)
          [rowT1]) ∧
      (List.find? (overrideMatch 7 rowT1) [rowT1] = none →
        db1 = [rowT1] ++
          [{ rowT1 with id := 9, date := some 7, status := some "cancelled" }]) ∧
      db2.length = db1.length ∧
      (List.filter (overrideMatch 7 rowT1) [rowT1] = [] →
        db1 = [rowT1] ++
          [{ rowT1 with id := 9, date := some 7, status := some "cancelled" }] ∧
        db1.length = ([rowT1] : TTDB).length + 1 ∧
        db2 = db1 ∧
        db2.filter (overrideMatch 7 rowT1)
          = [{ rowT1 with id := 9, date := some 7, status := some "cancelled" }] ∧
        (db2.filter (overrideMatch 7 rowT1)).length = 1) ∧
      (∀ r ∈ ([rowT1] : TTDB), r.date = none → r ∈ db1 ∧ r ∈ db2) :=
  ⟨by decide,
    setStatus_lifecycle [rowT1] 1 7 "cancelled" 9 10 rowT1 (by decide) (by decide)
      (by decide) (by decide)⟩

/-- C4 counterexample: `clearOverride` invoked with the id of a template
row completes successfully (a redirect, not a NotFound/Protected
failure) and silently deletes nothing. -/
theorem clearOverride_counterexample :
    uncancel [rowT1] (some 1) = .ok ([rowT1], []) := rfl

/-- C4 amended: `clearOverride` deletes a row only if its date is
non-null; on a template-row id it silently does nothing (the operation
still succeeds) and it never deletes a template row.  No audit log is
written. -/
theorem clearOverride_protects_template (db : TTDB) (tid : Nat) :
    ∃ db', uncancel db (some tid) = .ok (db', []) ∧
      (∀ r ∈ db, r.date = none → r ∈ db') ∧
      (∀ r ∈ db, r ∉ db' → r.id = tid ∧ r.date ≠ none) ∧
      (∀ r ∈ db', r ∈ db) := by
  refine ⟨db.filter (fun r => !(decide (r.id = tid) && r.date.isSome)), rfl, ?_, ?_, ?_⟩
  · intro r hr hrd
    apply List.mem_filter.mpr
    refine ⟨hr, ?_⟩
    simp [hrd]
  · intro r hr hnot
    by_cases hid : r.id = tid
    · refine ⟨hid, ?_⟩
      intro hrd
      exact hnot (List.mem_filter.mpr ⟨hr, by simp [hrd]⟩)
    · exact absurd (List.mem_filter.mpr ⟨hr, by simp [hid]⟩) hnot
  · intro r hr
    exact (List.mem_filter.mp hr).1

theorem clearOverride_protects_template_witness :
    ∃ db', uncancel [rowT1, rowO5] (some 3) = .ok (db', []) ∧
      (∀ r ∈ ([rowT1, rowO5] : TTDB), r.date = none → r ∈ db') ∧
      (∀ r ∈ ([rowT1, rowO5] : TTDB), r ∉ db' → r.id = 3 ∧ r.date ≠ none) ∧
      (∀ r ∈ db', r ∈ ([rowT1, rowO5] : TTDB)) :=
  clearOverride_protects_template [rowT1, rowO5] 3

/-! ## Assessment scoring engine

SQLite `REAL` columns hold the small decimal point values of this
application exactly; they are embedded as `ℚ`.  `INTEGER` id columns are
signed and request-parsed through Python `int`, so ids in this part are
embedded as `Int`.  The surrogate `id` primary keys of
`performance_results` and `performance_task_results` are omitted: every
query of the source addresses these rows by their
(performance, student [, task]) key, and the one `UPDATE ... WHERE id=?`
targets exactly the row just fetched by that key. -/

/-- One row of `performance_queries`. -/
structure PerfQuery where
  id : Int
  ptype : String
  description : String
  subject_id : Option Int
  class_id : Option Int
  course_id : Option Int
  qdate : String
  grade_scale_id : Option Int
  max_op_points : ℚ
deriving DecidableEq

/-- One row of `performance_tasks`. -/
structure PerfTask where
  id : Int
  performance_id : Int
  number : Int
  max_points : ℚ
deriving DecidableEq

/-- One row of `grade_scales`. -/
structure GradeScale where
  id : Int
  name : String
  definition : String
deriving DecidableEq

/-- One row of `performance_results` (surrogate id omitted, see above). -/
structure PerfResult where
  performance_id : Int
  student_id : Int
  op_points : ℚ
  zp_points : ℚ
  grade_override : Option ℚ
  comment : Option String
  op_is_edited : Bool
  zp_is_edited : Bool
deriving DecidableEq

/-- One row of `performance_task_results` (surrogate id omitted). -/
structure PTaskResult where
  performance_id : Int
  student_id : Int
  task_number : Int
  points : ℚ
  is_edited : Bool
deriving DecidableEq

/-- The assessment-related tables, each in insertion order. -/
structure SDB where
  performance_queries : List PerfQuery
  performance_tasks : List PerfTask
  grade_scales : List GradeScale
  performance_results : List PerfResult
  performance_task_results : List PTaskResult
deriving DecidableEq

/-- Python `s.split(sep)` for a one-character separator (the source only
splits on `";"`, `"\n"` and `"_"`). -/
def pySplit (sep : Char) (s : String) : List String :=
  (s.data.splitOn sep).map List.asString

/-- Python `s.strip()` (leading/trailing whitespace removed). -/
def pyStrip (s : String) : String :=
  ((s.data.dropWhile Char.isWhitespace).reverse.dropWhile Char.isWhitespace).reverse.asString

/-- Python `s.startswith(pre)`. -/
def pyStarts (pre s : String) : Bool :=
  List.isPrefixOf pre.data s.data

/-- All-digit run parsed to a number; `none` on a non-digit. -/
def parseNatAux : List Char → Nat → Option Nat
  | [], acc => some acc
  | c :: cs, acc =>
    if c.isDigit then parseNatAux cs (acc * 10 + (c.toNat - 48)) else none

/-- Non-empty all-digit run. -/
def parseNatDigits (cs : List Char) : Option Nat :=
  match cs with
  | [] => none
  | _ => parseNatAux cs 0

/-- Sign-aware digit run. -/
def parseIntChars : List Char → Option Int
  | '+' :: cs => (parseNatDigits cs).map (fun n => (n : Int))
  | '-' :: cs => (parseNatDigits cs).map (fun n => -(n : Int))
  | cs => (parseNatDigits cs).map (fun n => (n : Int))

/-- Python `int(s)` on an already-stripped string: optional sign then
decimal digits (digit-group underscores are not modelled; the
application's data never carries them). -/
def parseInt (s : String) : Option Int :=
  parseIntChars s.data

/-- Digits with at most one decimal point and at least one digit
(`"5"`, `"5."`, `".5"`; not `"."` or `""`). -/
def parseMantissa (cs : List Char) : Option ℚ :=
  match cs.splitOn '.' with
  | [a] => (parseNatDigits a).map (fun n => (n : ℚ))
  | [a, b] =>
    if a = [] && b = [] then none
    else
      match (if a = [] then some 0 else parseNatDigits a),
            (if b = [] then some 0 else parseNatDigits b) with
      | some ia, some ib => some ((ia : ℚ) + (ib : ℚ) / (10 : ℚ) ^ b.length)
      | _, _ => none
  | _ => none

/-- Python `float(s)` on an already-stripped string: optional sign,
decimal mantissa, optional `e`/`E` exponent.  (`inf`/`nan` and
digit-group underscores are not modelled; the application's data never
carries them.) -/
def parseFloat (s : String) : Option ℚ :=
  let cs := s.data.map Char.toLower
  let sign : ℚ × List Char :=
    match cs with
    | '+' :: r => (1, r)
    | '-' :: r => (-1, r)
    | r => (1, r)
  match sign.2.splitOn 'e' with
  | [m] => (parseMantissa m).map (fun q => sign.1 * q)
  | [m, ex] =>
    match parseMantissa m, parseIntChars ex with
    | some mv, some ev => some (sign.1 * mv * (10 : ℚ) ^ ev)
    | _, _ => none
  | _ => none

/-- One line of a grade-scale definition: `label;min;max`, three
semicolon-separated fields, stripped, bounds parsed as floats; `none`
(line skipped) on wrong field count or unparseable bound. -/
def parseScaleLine (ln : String) : Option (String × ℚ × ℚ) :=
  match (pySplit ';' ln).map pyStrip with
  | [g, mi, ma] =>
    match parseFloat mi, parseFloat ma with
    | some miv, some mav => some (g, miv, mav)
    | _, _ => none
  | _ => none

/-- The band list of a scale definition, in line order, skipping
malformed lines (the `for ln in definition.splitlines()` loop of
`_calculate_student_performance_grade`). -/
def parseScaleDef (definition : String) : List (String × ℚ × ℚ) :=
  (pySplit '\n' definition).filterMap parseScaleLine

/-- CPython `round` to an integer: round-half-to-even.  (The source
rounds IEEE doubles; this application's point values are small decimals
that doubles represent exactly, so the rational model is exact.) -/
def pyRound (q : ℚ) : ℤ :=
  let f := ⌊q⌋
  let r := q - (f : ℚ)
  if r < 1 / 2 then f
  else if 1 / 2 < r then f + 1
  else if f % 2 = 0 then f else f + 1

/-- The final grade is either a scale label (computed) or the numeric
manual override (`grade_override` is a `REAL` column). -/
inductive GradeVal where
  | label (s : String)
  | num (q : ℚ)
deriving DecidableEq

/-- The dictionary returned by `_calculate_student_performance_grade`. -/
structure ScoreResult where
  total_points : ℚ
  percentage : ℚ
  grade : GradeVal
deriving DecidableEq

/-- First band containing the percentage, in stored order
(`for g, mi, ma in scale_def: if pct >= mi and pct < ma: break`);
`""` when none matches. -/
def gradeLookup : List (String × ℚ × ℚ) → ℚ → String
  | [], _ => ""
  | (g, mi, ma) :: rest, pct =>
    if mi ≤ pct ∧ pct < ma then g else gradeLookup rest pct

/-- `_calculate_student_performance_grade` (the spec's `scoreStudent`):
straight-line transcription. -/
def scoreStudent (db : SDB) (performance_id student_id : Int) : Option ScoreResult :=
  match db.performance_queries.find? (fun p => decide (p.id = performance_id)) with
  | none => none
  | some performance =>
    match performance.grade_scale_id with
    | none => none
    | some gsid =>
      -- `not performance['grade_scale_id']` is Python truthiness: NULL or 0
      if gsid = 0 then none
      else
        let tasks := db.performance_tasks.filter
          (fun t => decide (t.performance_id = performance_id))
        let total_max := (tasks.map PerfTask.max_points).sum
        if total_max = 0 then none
        else
          match db.grade_scales.find? (fun s => decide (s.id = gsid)) with
          | none => none
          | some scale_row =>
            let scale_def := parseScaleDef scale_row.definition
            if scale_def = [] then none
            else
              let results := db.performance_results.find?
                (fun r => decide (r.performance_id = performance_id ∧
                  r.student_id = student_id))
              let task_results := db.performance_task_results.filter
                (fun r => decide (r.performance_id = performance_id ∧
                  r.student_id = student_id))
              let op := match results with
                | some r => r.op_points
                | none => 0
              let zp := match results with
                | some r => r.zp_points
                | none => 0
              let override := match results with
                | some r => r.grade_override
                | none => none
              let task_sum := (task_results.map PTaskResult.points).sum
              let tot := task_sum + op + zp
              let tot_rounded := (pyRound (tot * 2) : ℚ) / 2
              let pct := tot_rounded / total_max * 100
              let grade := gradeLookup scale_def pct
              let final_grade := match override with
                | some o => GradeVal.num o
                | none => GradeVal.label grade
              some ⟨tot_rounded, pct, final_grade⟩

/-- Spec quantity: `totalMaxPoints = sum(task.maxPoints)` over the
assessment's rubric. -/
def totalMaxPoints (db : SDB) (pid : Int) : ℚ :=
  ((db.performance_tasks.filter (fun t => decide (t.performance_id = pid))).map
    PerfTask.max_points).sum

/-- Spec quantity: the student's `PerformanceResult` row. -/
def resultRow (db : SDB) (pid sid : Int) : Option PerfResult :=
  db.performance_results.find?
    (fun r => decide (r.performance_id = pid ∧ r.student_id = sid))

/-- Spec quantity: `rawTotal = sum(taskResult.points) + opPoints + zpPoints`
(missing result row contributes 0). -/
def rawTotal (db : SDB) (pid sid : Int) : ℚ :=
  ((db.performance_task_results.filter
      (fun r => decide (r.performance_id = pid ∧ r.student_id = sid))).map
    PTaskResult.points).sum +
  (match resultRow db pid sid with
   | some r => r.op_points
   | none => 0) +
  (match resultRow db pid sid with
   | some r => r.zp_points
   | none => 0)

/-- Spec quantity: raw total rounded to the nearest half point. -/
def roundedTotal (db : SDB) (pid sid : Int) : ℚ :=
  (pyRound (rawTotal db pid sid * 2) : ℚ) / 2

/-- Assessment "Klassenarbeit" with grade scale 1, class 1. -/
def exPQ : PerfQuery := ⟨1, "KA", "", none, some 1, none, "", some 1, 0⟩

/-- Grade scale with the single band `2.0;79.0;86.0`. -/
def exScale : GradeScale := ⟨1, "Standard", "2.0;79.0;86.0"⟩

/-- Scoring example of the spec: tasks with max points 10 and 10, task
results 8 and 7, opPoints 2, zpPoints 0, no override. -/
def exC2db : SDB := ⟨[exPQ], [⟨1, 1, 1, 10⟩, ⟨2, 1, 2, 10⟩], [exScale],
  [⟨1, 1, 2, 0, none, none, false, false⟩],
  [⟨1, 1, 1, 8, false⟩, ⟨1, 1, 2, 7, false⟩]⟩

/-- Same as `exC2db` with a manual `grade_override` of 1.0. -/
def exC2dbOv : SDB := ⟨[exPQ], [⟨1, 1, 1, 10⟩, ⟨2, 1, 2, 10⟩], [exScale],
  [⟨1, 1, 2, 0, some 1, none, false, false⟩],
  [⟨1, 1, 1, 8, false⟩, ⟨1, 1, 2, 7, false⟩]⟩

unseal Rat.add Rat.mul Rat.inv Rat.sub in
/-- C2: when an assessment is scorable (scale configured and found,
non-zero rubric maximum, non-empty band list), `scoreStudent` returns the
half-point-rounded total, the percentage `roundedTotal / totalMaxPoints *
100`, and the label of the first band `[min, max)` containing the
percentage (`""` if none) — replaced by the numeric `gradeOverride`
whenever one is present; in particular on the spec's example it returns
total 17, percentage 85, grade "2.0", and the override 1.0 replaces the
computed "2.0". -/
theorem scoreStudent_computation (db : SDB) (pid sid : Int) (pq : PerfQuery)
    (gsid : Int) (sc : GradeScale)
    (hpq : db.performance_queries.find? (fun p => decide (p.id = pid)) = some pq)
    (hgs : pq.grade_scale_id = some gsid) (hgs0 : gsid ≠ 0)
    (htm : totalMaxPoints db pid ≠ 0)
    (hsc : db.grade_scales.find? (fun s => decide (s.id = gsid)) = some sc)
    (hbands : parseScaleDef sc.definition ≠ []) :
    (scoreStudent db pid sid = some
      { total_points := roundedTotal db pid sid,
        percentage := roundedTotal db pid sid / totalMaxPoints db pid * 100,
        grade :=
          match (resultRow db pid sid).bind PerfResult.grade_override with
          | some o => GradeVal.num o
          | none => GradeVal.label (gradeLookup (parseScaleDef sc.definition)
              (roundedTotal db pid sid / totalMaxPoints db pid * 100)) }) ∧
    scoreStudent exC2db 1 1 = some ⟨17, 85, GradeVal.label "2.0"⟩ ∧
    scoreStudent exC2dbOv 1 1 = some ⟨17, 85, GradeVal.num 1⟩ := by
  refine ⟨?_, by decide, by decide⟩
  unfold totalMaxPoints at htm
  simp only [scoreStudent, hpq, hgs, hsc]
  rw [if_neg hgs0, if_neg htm, if_neg hbands]
  simp only [roundedTotal, rawTotal, totalMaxPoints, resultRow]
  cases hres : db.performance_results.find?
      (fun r => decide (r.performance_id = pid ∧ r.student_id = sid)) with
  | none => simp
  | some r =>
    cases hov : r.grade_override with
    | none => simp [hov]
    | some o => simp [hov]

unseal Rat.add Rat.mul Rat.inv Rat.sub in
theorem scoreStudent_computation_witness :
    (totalMaxPoints exC2db 1 ≠ 0 ∧ parseScaleDef exScale.definition ≠ []) ∧
    scoreStudent exC2db 1 1 = some
      { total_points := roundedTotal exC2db 1 1,
        percentage := roundedTotal exC2db 1 1 / totalMaxPoints exC2db 1 * 100,
        grade :=
          match (resultRow exC2db 1 1).bind PerfResult.grade_override with
          | some o => GradeVal.num o
          | none => GradeVal.label (gradeLookup (parseScaleDef exScale.definition)
              (roundedTotal exC2db 1 1 / totalMaxPoints exC2db 1 * 100)) } :=
  ⟨by decide,
    (scoreStudent_computation exC2db 1 1 exPQ 1 exScale (by decide) (by decide)
      (by decide) (by decide) (by decide) (by decide)).1⟩

unseal Rat.add Rat.mul Rat.inv Rat.sub in
/-- C9: `scoreStudent` returns `none` when the assessment has no scale
reference, when the rubric's total max points is zero (regardless of
recorded points), or when the referenced scale parses to an empty band
list; malformed scale lines (wrong field count or non-numeric bound) are
skipped rather than failing — in particular `"X;abc;10"` is skipped while
the rest of the definition still parses. -/
theorem scoreStudent_guards (db : SDB) (pid sid : Int) :
    (∀ pq, db.performance_queries.find? (fun p => decide (p.id = pid)) = some pq →
      pq.grade_scale_id = none → scoreStudent db pid sid = none) ∧
    (totalMaxPoints db pid = 0 → scoreStudent db pid sid = none) ∧
    (∀ pq gsid sc,
      db.performance_queries.find? (fun p => decide (p.id = pid)) = some pq →
      pq.grade_scale_id = some gsid →
      db.grade_scales.find? (fun s => decide (s.id = gsid)) = some sc →
      parseScaleDef sc.definition = [] →
      scoreStudent db pid sid = none) ∧
    parseScaleLine "X;abc;10" = none ∧
    parseScaleDef "X;abc;10\n2.0;79.0;86.0" = [("2.0", (79 : ℚ), (86 : ℚ))] ∧
    (∀ ln, ((pySplit ';' ln).map pyStrip).length ≠ 3 → parseScaleLine ln = none) ∧
    (∀ ln g mi ma, (pySplit ';' ln).map pyStrip = [g, mi, ma] →
      parseFloat mi = none ∨ parseFloat ma = none → parseScaleLine ln = none) := by
  refine ⟨?_, ?_, ?_, by decide, by decide, ?_, ?_⟩
  · intro pq h1 h2
    simp [scoreStudent, h1, h2]
  · intro htm
    unfold totalMaxPoints at htm
    cases hpq : db.performance_queries.find? (fun p => decide (p.id = pid)) with
    | none => simp [scoreStudent, hpq]
    | some pq =>
      cases hgs : pq.grade_scale_id with
      | none => simp [scoreStudent, hpq, hgs]
      | some gsid =>
        by_cases hz : gsid = 0
        · simp [scoreStudent, hpq, hgs, hz]
        · simp only [scoreStudent, hpq, hgs]
          rw [if_neg hz, if_pos htm]
  · intro pq gsid sc h1 h2 h3 h4
    simp only [scoreStudent, h1, h2, h3]
    by_cases hz : gsid = 0
    · simp [hz]
    · simp only [if_neg hz]
      by_cases htm : ((db.performance_tasks.filter
          (fun t => decide (t.performance_id = pid))).map PerfTask.max_points).sum = 0
      · rw [if_pos htm]
      · rw [if_neg htm, if_pos h4]
  · intro ln hlen
    unfold parseScaleLine
    rcases hl : (pySplit ';' ln).map pyStrip with _ | ⟨g, _ | ⟨mi, _ | ⟨ma, _ | ⟨x, rest⟩⟩⟩⟩ <;>
      first
        | rfl
        | (exact absurd (by simp [hl]) hlen)
  · intro ln g mi ma heq hbad
    unfold parseScaleLine
    rw [heq]
    show (match parseFloat mi, parseFloat ma with
          | some miv, some mav => some (g, miv, mav)
          | _, _ => none) = none
    rcases hbad with h | h
    · rw [h]
    · cases hmi : parseFloat mi with
      | none => rfl
      | some miv => rw [h]

unseal Rat.add Rat.mul Rat.inv Rat.sub in
theorem scoreStudent_guards_witness :
    (totalMaxPoints (SDB.mk [exPQ] [] [exScale] [] []) 1 = 0) ∧
    scoreStudent (SDB.mk [exPQ] [] [exScale] [] []) 1 1 = none :=
  ⟨by decide,
    (scoreStudent_guards (SDB.mk [exPQ] [] [exScale] [] []) 1 1).2.1 (by decide)⟩

/-! ## CSV import of assessment results (`_post_performance_import`)

The handler runs one committed transaction (`with conn:`) deleting all
`performance_task_results` and `performance_results` rows of the
assessment, then one committed transaction *per CSV data line* inserting
that line's rows.  The embedding makes the transaction boundaries
explicit as a list of store-to-store functions; a crash between
transactions leaves exactly the prefix applied. -/

/-- `[l.strip() for l in csv_data.strip().splitlines() if l.strip()]`. -/
def importLines (csv : String) : List String :=
  ((pySplit '\n' (pyStrip csv)).map pyStrip).filter (fun l => decide (l ≠ ""))

/-- `task_count = len([h for h in header if h.startswith('Aufgabe')])`. -/
def importTaskCount (headerLine : String) : Nat :=
  (((pySplit ';' headerLine).map pyStrip).filter (fun h => pyStarts "Aufgabe" h)).length

/-- One accepted CSV data line: student id, raw task value strings, and
the two bonus-point fields. -/
structure ImportRow where
  student_id : Int
  values : List String
  op : ℚ
  zp : ℚ
deriving DecidableEq

/-- `float(val) if val else 0.0`, `except ValueError: 0.0`. -/
def parsePoints (val : String) : ℚ :=
  if val = "" then 0
  else
    match parseFloat val with
    | some v => v
    | none => 0

/-- Parse one CSV data line: skipped (`continue`) when it has fewer than
three fields or a non-integer student id; task values are
`parts[3 : 3 + task_count]`, OP and ZP the following two fields when
present. -/
def parseImportLine (taskCount : Nat) (line : String) : Option ImportRow :=
  let parts := (pySplit ';' line).map pyStrip
  if parts.length < 3 then none
  else
    match parseInt (parts.getD 0 "") with
    | none => none
    | some sid =>
      some ⟨sid, (parts.drop 3).take taskCount,
        if 3 + taskCount + 1 ≤ parts.length then parsePoints (parts.getD (3 + taskCount) "")
        else 0,
        if 3 + taskCount + 2 ≤ parts.length then parsePoints (parts.getD (3 + taskCount + 1) "")
        else 0⟩

/-- `INSERT INTO performance_results(performance_id, student_id,
op_points, zp_points)`: remaining columns keep their defaults. -/
def newPR (pid : Int) (row : ImportRow) : PerfResult :=
  ⟨pid, row.student_id, row.op, row.zp, none, none, false, false⟩

/-- `for i, val in enumerate(values, start=1): INSERT INTO
performance_task_results(...)`. -/
def newPTRs (pid : Int) (row : ImportRow) : List PTaskResult :=
  (List.enumFrom 1 row.values).map
    (fun iv => ⟨pid, row.student_id, (iv.1 : Int), parsePoints iv.2, false⟩)

/-- First transaction: delete every task-result and result row of the
assessment. -/
def deleteTxn (pid : Int) (db : SDB) : SDB :=
  { db with
    performance_task_results :=
      db.performance_task_results.filter (fun r => !decide (r.performance_id = pid)),
    performance_results :=
      db.performance_results.filter (fun r => !decide (r.performance_id = pid)) }

/-- Per-line transaction: insert the line's result row and task-result
rows. -/
def insertTxn (pid : Int) (row : ImportRow) (db : SDB) : SDB :=
  { db with
    performance_results := db.performance_results ++ [newPR pid row],
    performance_task_results := db.performance_task_results ++ newPTRs pid row }

/-- The committed-transaction sequence of one import request; empty when
the CSV is blank (the 400 path runs no transaction). -/
def importTxns (pid : Int) (csv : String) : List (SDB → SDB) :=
  match importLines csv with
  | [] => []
  | headerLine :: dataLines =>
    deleteTxn pid ::
      (dataLines.filterMap (parseImportLine (importTaskCount headerLine))).map
        (insertTxn pid)

/-- Apply a transaction sequence in order. -/
def runTxns (txns : List (SDB → SDB)) (db : SDB) : SDB :=
  txns.foldl (fun d t => t d) db

/-- A completed import. -/
def importRun (db : SDB) (pid : Int) (csv : String) : SDB :=
  runTxns (importTxns pid csv) db

/-- A store holding one previously imported result for assessment 1. -/
def exImpDB : SDB :=
  ⟨[exPQ], [⟨1, 1, 1, 10⟩], [exScale],
    [⟨1, 3, 1, 0, none, none, false, false⟩], [⟨1, 3, 1, 6, false⟩]⟩

/-- A one-student CSV for assessment 1. -/
def exCSV : String := "StudentID;LastName;FirstName;Aufgabe1\n7;X;Y;5"

unseal Rat.add Rat.mul Rat.inv Rat.sub in
/-- C5 counterexample: the import's delete and its row inserts commit in
separate transactions; stopping after the first (committed) transaction
leaves a store that is neither the initial one nor the fully imported
one, so the delete-then-reinsert sequence is not one atomic
transaction. -/
theorem import_not_atomic :
    (importTxns 1 exCSV).length = 2 ∧
    runTxns ((importTxns 1 exCSV).take 1) exImpDB ≠ exImpDB ∧
    runTxns ((importTxns 1 exCSV).take 1) exImpDB ≠ importRun exImpDB 1 exCSV := by
  decide

theorem runTxns_insertTxns (pid : Int) :
    ∀ (rows : List ImportRow) (d : SDB),
      runTxns (rows.map (insertTxn pid)) d =
        { d with
          performance_results := d.performance_results ++ rows.map (newPR pid),
          performance_task_results :=
            d.performance_task_results ++ (rows.map (newPTRs pid)).flatten } := by
  intro rows
  induction rows with
  | nil => intro d; simp [runTxns]
  | cons r rows ih =>
    intro d
    have h1 : runTxns ((r :: rows).map (insertTxn pid)) d
        = runTxns (rows.map (insertTxn pid)) (insertTxn pid r d) := rfl
    rw [h1, ih (insertTxn pid r d)]
    simp [insertTxn, List.append_assoc]

/-- C5 amended: the import first deletes every result and task-result
row of the assessment, then inserts exactly the rows parsed from the CSV
— a completed import leaves exactly the new rows for that assessment and
leaves other assessments' rows untouched (full replace); but the
sequence runs as one delete transaction followed by one transaction per
CSV line, not as a single atomic transaction. -/
theorem import_full_replace (db : SDB) (pid : Int) (csv : String)
    (headerLine : String) (dataLines : List String)
    (hlines : importLines csv = headerLine :: dataLines) :
    let rows := dataLines.filterMap (parseImportLine (importTaskCount headerLine))
    ((importRun db pid csv).performance_results.filter
        (fun r => decide (r.performance_id = pid)) = rows.map (newPR pid)) ∧
    ((importRun db pid csv).performance_task_results.filter
        (fun r => decide (r.performance_id = pid)) = (rows.map (newPTRs pid)).flatten) ∧
    ((importRun db pid csv).performance_results.filter
        (fun r => !decide (r.performance_id = pid))
      = db.performance_results.filter (fun r => !decide (r.performance_id = pid))) ∧
    ((importRun db pid csv).performance_task_results.filter
        (fun r => !decide (r.performance_id = pid))
      = db.performance_task_results.filter (fun r => !decide (r.performance_id = pid))) := by
  intro rows
  have hrun : importRun db pid csv =
      { deleteTxn pid db with
        performance_results :=
          (deleteTxn pid db).performance_results ++ rows.map (newPR pid),
        performance_task_results :=
          (deleteTxn pid db).performance_task_results ++
            (rows.map (newPTRs pid)).flatten } := by
    unfold importRun importTxns
    rw [hlines]
    exact runTxns_insertTxns pid rows (deleteTxn pid db)
  rw [hrun]
  have hprkeep : ∀ r ∈ rows.map (newPR pid), decide (r.performance_id = pid) = true := by
    intro r hr
    obtain ⟨row, _, rfl⟩ := List.mem_map.mp hr
    simp [newPR]
  have hptrkeep : ∀ r ∈ (rows.map (newPTRs pid)).flatten,
      decide (r.performance_id = pid) = true := by
    intro r hr
    obtain ⟨l, hl, hrl⟩ := List.mem_flatten.mp hr
    obtain ⟨row, _, rfl⟩ := List.mem_map.mp hl
    obtain ⟨iv, _, rfl⟩ := List.mem_map.mp hrl
    simp [newPTRs]
  refine ⟨?_, ?_, ?_, ?_⟩
  · show ((deleteTxn pid db).performance_results ++ rows.map (newPR pid)).filter _ = _
    rw [List.filter_append]
    have h1 : (deleteTxn pid db).performance_results.filter
        (fun r => decide (r.performance_id = pid)) = [] := by
      show (db.performance_results.filter _).filter _ = []
      rw [List.filter_filter]
      apply List.filter_eq_nil_iff.mpr
      intro a _
      by_cases h : a.performance_id = pid <;> simp [h]
    rw [h1, List.filter_eq_self.mpr hprkeep]
    rfl
  · show ((deleteTxn pid db).performance_task_results ++
        (rows.map (newPTRs pid)).flatten).filter _ = _
    rw [List.filter_append]
    have h1 : (deleteTxn pid db).performance_task_results.filter
        (fun r => decide (r.performance_id = pid)) = [] := by
      show (db.performance_task_results.filter _).filter _ = []
      rw [List.filter_filter]
      apply List.filter_eq_nil_iff.mpr
      intro a _
      by_cases h : a.performance_id = pid <;> simp [h]
    rw [h1, List.filter_eq_self.mpr hptrkeep]
    rfl
  · show ((deleteTxn pid db).performance_results ++ rows.map (newPR pid)).filter _ = _
    rw [List.filter_append]
    have h1 : (rows.map (newPR pid)).filter
        (fun r => !decide (r.performance_id = pid)) = [] := by
      apply List.filter_eq_nil_iff.mpr
      intro a ha
      simp [hprkeep a ha]
    have h2 : (deleteTxn pid db).performance_results.filter
        (fun r => !decide (r.performance_id = pid))
        = db.performance_results.filter (fun r => !decide (r.performance_id = pid)) := by
      show (db.performance_results.filter _).filter _ = _
      rw [List.filter_filter]
      apply List.filter_congr
      intro a _
      by_cases h : a.performance_id = pid <;> simp [h]
    rw [h1, h2, List.append_nil]
  · show ((deleteTxn pid db).performance_task_results ++
        (rows.map (newPTRs pid)).flatten).filter _ = _
    rw [List.filter_append]
    have h1 : ((rows.map (newPTRs pid)).flatten).filter
        (fun r => !decide (r.performance_id = pid)) = [] := by
      apply List.filter_eq_nil_iff.mpr
      intro a ha
      simp [hptrkeep a ha]
    have h2 : (deleteTxn pid db).performance_task_results.filter
        (fun r => !decide (r.performance_id = pid))
        = db.performance_task_results.filter (fun r => !decide (r.performance_id = pid)) := by
      show (db.performance_task_results.filter _).filter _ = _
      rw [List.filter_filter]
      apply List.filter_congr
      intro a _
      by_cases h : a.performance_id = pid <;> simp [h]
    rw [h1, h2, List.append_nil]

unseal Rat.add Rat.mul Rat.inv Rat.sub in
theorem import_full_replace_witness :
    (importLines exCSV = ["StudentID;LastName;FirstName;Aufgabe1", "7;X;Y;5"]) ∧
    ((importRun exImpDB 1 exCSV).performance_results.filter
        (fun r => decide (r.performance_id = 1))
      = (["7;X;Y;5"].filterMap
          (parseImportLine (importTaskCount "StudentID;LastName;FirstName;Aufgabe1"))).map
          (newPR 1)) :=
  ⟨by decide,
    (import_full_replace exImpDB 1 exCSV "StudentID;LastName;FirstName;Aufgabe1"
      ["7;X;Y;5"] (by decide)).1⟩

/-! ## Score update path (`_post_performance_update_student_scores`) -/

/-- Replace the first list element satisfying `p` (the source fetches the
row's id and runs `UPDATE ... WHERE id=?` on exactly that row). -/
def updateFirst {α : Type} (p : α → Bool) (f : α → α) : List α → List α
  | [] => []
  | a :: l => if p a then f a :: l else a :: updateFirst p f l

/-- `_post_performance_update_student_scores`: 400 when an id is
falsy or no scores were sent; otherwise update `op_points`/`zp_points`
(setting the edited flags) on every result row of the (assessment,
student) pair, then find-or-create each posted `task_<n>` task result
(setting `is_edited`), then return the recomputed score.  The JSON score
values are numbers, so Python's `float(value)` is the identity and only
the task-key parse (`int(key.split('_')[1])`) can fail and skip an
entry.  The handler contains no `_log_change` call, so the emitted
audit-log list is always empty. -/
def updateStudentScores (db : SDB) (pid sid : Int) (scores : List (String × ℚ)) :
    Except String (SDB × Option ScoreResult × List LogRecord) :=
  if pid = 0 ∨ sid = 0 ∨ scores = [] then
    .error "400 Missing data."
  else
    let db1 := match scores.lookup "op_points" with
      | some v =>
        { db with performance_results :=
            (db.performance_results.map
              (fun r => if r.performance_id = pid ∧ r.student_id = sid then
                { r with op_points := v, op_is_edited := true } else r)) }
      | none => db
    let db2 := match scores.lookup "zp_points" with
      | some v =>
        { db1 with performance_results :=
            (db1.performance_results.map
              (fun r => if r.performance_id = pid ∧ r.student_id = sid then
                { r with zp_points := v, zp_is_edited := true } else r)) }
      | none => db1
    let db3 := scores.foldl (fun d kv =>
        if pyStarts "task_" kv.1 then
          match parseInt ((pySplit '_' kv.1).getD 1 "") with
          | none => d
          | some tn =>
            match d.performance_task_results.find?
                (fun r => decide (r.performance_id = pid ∧ r.student_id = sid ∧
                  r.task_number = tn)) with
            | some _ =>
              { d with performance_task_results :=
                  (updateFirst
                    (fun r => decide (r.performance_id = pid ∧ r.student_id = sid ∧
                      r.task_number = tn))
                    (fun r => { r with points := kv.2, is_edited := true })
                    d.performance_task_results) }
            | none =>
              { d with performance_task_results :=
                  d.performance_task_results ++ [⟨pid, sid, tn, kv.2, true⟩] }
        else d) db2
    .ok (db3, scoreStudent db3 pid sid, [])

/-- C6 counterexample: `setStatus` mutates the store (it inserts an
override row) yet emits no audit-log record — the audit-log collaborator
is not called after this mutating operation. -/
theorem audit_log_counterexample :
    updateStatus [rowT1] 1 7 "cancelled" 9
      = .ok ([rowT1, { rowT1 with id := 9, date := some 7, status := some "cancelled" }],
          []) ∧
    ([rowT1, { rowT1 with id := 9, date := some 7, status := some "cancelled" }] : TTDB)
      ≠ [rowT1] := by
  exact ⟨rfl, by decide⟩

/-- C6 amended: none of the override-lifecycle operations (`setStatus`,
`clearOverride`) nor the scoring engine's update path
(`updateStudentScores`) calls the audit-log collaborator: every
successful run emits an empty audit-log record list.  (The audit log is
written by other handlers — import, grade-override and attendance.) -/
theorem mutations_write_no_audit_log :
    (∀ (db : TTDB) (tid d : Nat) (st : String) (newId : Nat) res,
      updateStatus db tid d st newId = .ok res → res.2 = []) ∧
    (∀ (db : TTDB) (tidOpt : Option Nat) res,
      uncancel db tidOpt = .ok res → res.2 = []) ∧
    (∀ (db : SDB) (pid sid : Int) (scores : List (String × ℚ)) res,
      updateStudentScores db pid sid scores = .ok res → res.2.2 = []) := by
  refine ⟨?_, ?_, ?_⟩
  · intro db tid d st newId res h
    unfold updateStatus at h
    cases hfind : findById db tid with
    | none => rw [hfind] at h; cases h
    | some t =>
      simp only [hfind] at h
      cases hex : db.find? (overrideMatch d t) with
      | some ex =>
        simp only [hex] at h
        cases h
        rfl
      | none =>
        simp only [hex] at h
        cases h
        rfl
  · intro db tidOpt res h
    unfold uncancel at h
    cases tidOpt with
    | none => cases h
    | some tid =>
      cases h
      rfl
  · intro db pid sid scores res h
    unfold updateStudentScores at h
    by_cases hg : pid = 0 ∨ sid = 0 ∨ scores = []
    · rw [if_pos hg] at h
      cases h
    · rw [if_neg hg] at h
      cases h
      rfl

theorem mutations_write_no_audit_log_witness :
    ∃ res, updateStatus [rowT1] 1 7 "cancelled" 9 = .ok res ∧ res.2 = [] :=
  ⟨_, rfl, mutations_write_no_audit_log.1 [rowT1] 1 7 "cancelled" 9 _ rfl⟩

end LehrerDB

